import Mathlib

/-!
Verification development for GalacticScribe, a single-file pipeline that
fetches story chapters, deduplicates them by title (newest wins), sorts them
by creation timestamp, validates their HTML bodies, assembles an e-book,
emails it, and maintains a size-capped delivery log.

The definitions below are a shallow embedding of src/GalacticScribe.py.
External effects (filesystem, SMTP, the remote platform) are represented as
an explicit event trace; fetch results and delivery outcomes are parameters.
-/

namespace GalacticScribe

/-! ## HTML model

Python parses the chapter body string with BeautifulSoup.  We model a body
as its parse tree: a sequence of nodes, each node either a text run or an
element with a tag name and child nodes.  `HtmlSeq.render` recovers the
source text of a fragment, which is what Python computes `len` of.
-/

mutual

inductive Html where
  | text : String → Html
  | elem : String → HtmlSeq → Html

inductive HtmlSeq where
  | nil : HtmlSeq
  | seq : Html → HtmlSeq → HtmlSeq

end

mutual

def Html.render : Html → String
  | .text s => s
  | .elem n cs => "<" ++ n ++ ">" ++ HtmlSeq.render cs ++ "</" ++ n ++ ">"

def HtmlSeq.render : HtmlSeq → String
  | .nil => ""
  | .seq h t => Html.render h ++ HtmlSeq.render t

end

mutual

def Html.textContent : Html → String
  | .text s => s
  | .elem _ cs => HtmlSeq.textContent cs

def HtmlSeq.textContent : HtmlSeq → String
  | .nil => ""
  | .seq h t => Html.textContent h ++ HtmlSeq.textContent t

end

/-- The whitespace characters removed by Python str.strip with no argument
(ASCII range; the claims only involve ASCII bodies). -/
def isPySpace (c : Char) : Bool :=
  (c == ' ') || (c == '\t') || (c == '\n') || (c == '\r') ||
    (c == Char.ofNat 11) || (c == Char.ofNat 12)

/-- `tag.text.strip()` is falsy exactly when every character of the text is
whitespace (including the empty text). -/
def blankText (s : String) : Bool := s.data.all isPySpace

/-- The tag names checked by `validate_story`: paragraph and heading tags. -/
def structuralTag (n : String) : Bool :=
  (n == "p") || (n == "h1") || (n == "h2") || (n == "h3") ||
    (n == "h4") || (n == "h5") || (n == "h6")

mutual

def Html.hasEmptyTag : Html → Bool
  | .text _ => false
  | .elem n cs =>
      (structuralTag n && blankText (HtmlSeq.textContent cs)) || HtmlSeq.hasEmptyTag cs

def HtmlSeq.hasEmptyTag : HtmlSeq → Bool
  | .nil => false
  | .seq h t => Html.hasEmptyTag h || HtmlSeq.hasEmptyTag t

end

/-- A single-quote character, used in the validation messages. -/
def sq : String := ⟨[Char.ofNat 39]⟩

/-- The per-character action of the re.sub in `sanitize_title`: a character
of the unsafe class becomes an underscore, all others are unchanged. -/
def sanitizeChar (c : Char) : Char :=
  if c = '<' ∨ c = '>' ∨ c = ':' ∨ c = '"' ∨ c = '/' ∨ c = '\\' ∨
      c = '|' ∨ c = '?' ∨ c = '*' then '_' else c

/-- `sanitize_title`: replaces every path-unsafe character with an underscore
(re.sub over the character class of unsafe characters). -/
def sanitize_title (title : String) : String :=
  ⟨title.data.map sanitizeChar⟩

/-- `validate_story`: rejects bodies shorter than 100 characters, then
rejects bodies whose parse tree contains a paragraph or heading element with
no non-whitespace text; otherwise accepts. -/
def validate_story (chapter_title : String) (html_content : HtmlSeq) : Bool × String :=
  if (HtmlSeq.render html_content).length < 100 then
    (false, "Chapter " ++ sq ++ chapter_title ++ sq ++ " is too short.")
  else if HtmlSeq.hasEmptyTag html_content then
    (false, "Chapter " ++ sq ++ chapter_title ++ sq ++ " contains empty tags.")
  else
    (true, "")

/-! ## Submissions, deduplication and ordering -/

/-- A fetched submission: title, creation timestamp and HTML body.
Timestamps are modelled as integers; only their ordering matters. -/
structure Submission where
  title : String
  created_utc : Int
  selftext_html : HtmlSeq

/-- One step of building the `chapter_submissions` dictionary: if the title
is already present, the stored submission is replaced only when the new one
has a strictly greater creation timestamp; otherwise the submission is
appended under its new title.  This mirrors Python dict insertion order:
an update keeps the original position of the key. -/
def dedupInsert : List Submission → Submission → List Submission
  | [], s => [s]
  | x :: xs, s =>
      if x.title == s.title then
        (if s.created_utc > x.created_utc then s else x) :: xs
      else
        x :: dedupInsert xs s

/-- The `chapter_submissions` dictionary after the collection loop, as an
association list in insertion order. -/
def chapter_submissions (l : List Submission) : List Submission :=
  l.foldl dedupInsert []

/-- Lookup by title in the dictionary (first entry with that title). -/
def findTitle (m : List Submission) (t : String) : Option Submission :=
  m.find? (fun x => x.title == t)

/-- The replacement policy of the collection loop as a two-argument choice:
keep the stored submission unless the new one is strictly newer. -/
def pick (a b : Submission) : Submission :=
  if b.created_utc > a.created_utc then b else a

/-- Folding the replacement policy over successive same-title submissions. -/
def updBest (o : Option Submission) (s : Submission) : Option Submission :=
  match o with
  | none => some s
  | some a => some (pick a s)

/-- `sorted_submissions`: the deduplicated submissions sorted ascending by
creation timestamp (Python sorted is a stable mergesort). -/
def sorted_submissions (l : List Submission) : List Submission :=
  (chapter_submissions l).mergeSort (fun a b => decide (a.created_utc ≤ b.created_utc))

/-- The chapters that survive validation, in processing order: the sorted
submissions with the invalid ones skipped. -/
def validChapters (l : List Submission) : List Submission :=
  (sorted_submissions l).filter (fun s => (validate_story s.title s.selftext_html).1)

/-! ## Orchestrator model

`download_stories` is modelled as a pure function from the configuration,
the fetch results and the per-path delivery outcome to an event trace plus
the `summary` and `failed_files` lists it accumulates.  `deliver p = none`
means the send-and-delete block for the e-book at path `p` succeeded;
`deliver p = some e` means it raised an exception rendered as `e`.
-/

structure Config where
  bot_enabled : Bool
  authors_stories : List (String × List String)
  receiver : String
  error_receiver : String
  cwd : String

/-- An entry of the spine list: the initial literal entry or a chapter. -/
inductive SpineItem where
  | nav : SpineItem
  | chapter : String → SpineItem
deriving DecidableEq

/-- The observable actions of one run, in program order. -/
inductive Event where
  | fetchChapters : String → String → Event
  | mkdir : String → Event
  | writeEpub : String → List SpineItem → List String → Event
  | sendEmail : Option String → String → String → Option String → Event
  | removeFile : String → Event
  | logEmailSent : String → Event
deriving DecidableEq

/-- Concatenation of the lists produced for each element, in order.  This is
the shape of the nested accumulation loops in `download_stories`. -/
def catMap (f : α → List β) : List α → List β
  | [] => []
  | x :: xs => f x ++ catMap f xs

def storyDir (cfg : Config) (story : String) : String :=
  cfg.cwd ++ "/" ++ sanitize_title story

def epubPath (cfg : Config) (story : String) : String :=
  storyDir cfg story ++ "/" ++ sanitize_title story ++ ".epub"

structure StoryResult where
  events : List Event
  summary : List String
  failed_files : List String

/-- The body of the two nested loops of `download_stories` for one
(author, story) pair: create the story directory, fetch, deduplicate, sort,
validate and collect the chapters, write the e-book, then attempt delivery;
on success the file is removed and the delivery logged, on failure an error
notification is sent and the path is recorded in `failed_files`. -/
def processStory (cfg : Config) (fetch : String → String → List Submission)
    (deliver : String → Option String) (author story : String) : StoryResult :=
  let subs := fetch author story
  let valid := validChapters subs
  let spine := SpineItem.nav :: valid.map (fun s => SpineItem.chapter s.title)
  let toc := valid.map Submission.title
  let path := epubPath cfg story
  let base : List Event :=
    [Event.mkdir (storyDir cfg story), Event.fetchChapters author story,
      Event.writeEpub path spine toc]
  match deliver path with
  | none =>
      ⟨base ++ [Event.sendEmail (some path) story cfg.receiver none,
          Event.removeFile path, Event.logEmailSent story],
        ["Successfully processed and sent " ++ story ++ " by " ++ author], []⟩
  | some e =>
      let msg := "Failed to send and delete EPUB for " ++ story ++ ": " ++ e
      ⟨base ++ [Event.sendEmail (some path) story cfg.receiver none,
          Event.sendEmail none ("Error - " ++ story) cfg.error_receiver (some msg)],
        [msg], [path]⟩

/-- The (author, story) pairs of one run, in configuration order. -/
def storyPairs (cfg : Config) : List (String × String) :=
  catMap (fun p => p.2.map (fun s => (p.1, s))) cfg.authors_stories

structure RunResult where
  events : List Event
  summary : List String
  failed_files : List String

/-- The per-story results of one run: one `StoryResult` per configured
(author, story) pair when the bot is enabled, none otherwise. -/
def runResults (cfg : Config) (fetch : String → String → List Submission)
    (deliver : String → Option String) : List StoryResult :=
  if cfg.bot_enabled then
    (storyPairs cfg).map (fun p => processStory cfg fetch deliver p.1 p.2)
  else []

/-- One invocation of `download_stories`: when the bot is enabled every
configured (author, story) pair is processed in order; in every case a final
summary email built from the accumulated summary lines is sent to the error
receiver. -/
def download_stories (cfg : Config) (fetch : String → String → List Submission)
    (deliver : String → Option String) : RunResult :=
  let results := runResults cfg fetch deliver
  let summary := catMap StoryResult.summary results
  let failed := catMap StoryResult.failed_files results
  let body := "Summary:\n\n" ++ String.intercalate "\n" summary
  ⟨catMap StoryResult.events results ++
      [Event.sendEmail none "Stories Download Summary" cfg.error_receiver (some body)],
    summary, failed⟩

/-! ## Delivery ledger retention -/

/-- A log file as the retention step sees it: a name, a creation time and a
size in bytes. -/
structure LogFile where
  name : String
  ctime : Int
  size : Nat
deriving DecidableEq

/-- Total byte size of the log files. -/
def totalSize (files : List LogFile) : Nat :=
  (files.map LogFile.size).sum

/-- The log files sorted by creation time, oldest first, as produced by the
first line of `clean_old_logs` (Python sorted is stable). -/
def sortByCtime (files : List LogFile) : List LogFile :=
  files.mergeSort (fun a b => decide (a.ctime ≤ b.ctime))

/-- The while-loop of `clean_old_logs`: while the total size exceeds the
cap, remove the first (oldest) remaining file and recompute.  The Python
comparison is in megabytes with exact value sum / 2 ^ 20; over the rationals
sum / 2 ^ 20 > cap is equivalent to the byte comparison sum > cap * 2 ^ 20
used here. -/
def cleanLoop (capBytes : Nat) : List LogFile → List LogFile
  | [] => []
  | f :: rest =>
      if totalSize (f :: rest) > capBytes then cleanLoop capBytes rest
      else f :: rest

/-- `clean_old_logs`: sort by creation time, then delete oldest files while
the total exceeds `max_size_mb` megabytes. -/
def clean_old_logs (files : List LogFile) (max_size_mb : Nat) : List LogFile :=
  cleanLoop (max_size_mb * 1024 * 1024) (sortByCtime files)

/-! ## Email retry policy

`send_email` is decorated with retry(stop=stop_after_attempt(3),
wait=wait_exponential(multiplier=1, min=4, max=60)).  `wait_exponential`
computes multiplier * 2 ^ n clamped into [min, max], where n is the number
of the attempt that just failed, counted from 1; `stop_after_attempt 3`
allows three attempts in total, after which the exception propagates.
-/

def wait_exponential (multiplier mn mx attempt : Nat) : Nat :=
  max mn (min (multiplier * 2 ^ attempt) mx)

/-- The wait applied after failed attempt number `attempt` of `send_email`. -/
def send_email_wait (attempt : Nat) : Nat := wait_exponential 1 4 60 attempt

/-- The retry driver: `outcome n` tells whether attempt `n` succeeds.
Returns whether the call eventually succeeded together with the list of
waits taken between consecutive attempts.  `fuel` is the number of attempts
still allowed. -/
def retryGo (outcome : Nat → Bool) : Nat → Nat → Bool × List Nat
  | _, 0 => (false, [])
  | attempt, 1 => (outcome attempt, [])
  | attempt, fuel + 2 =>
      if outcome attempt then (true, [])
      else
        let r := retryGo outcome (attempt + 1) (fuel + 1)
        (r.1, send_email_wait attempt :: r.2)

/-- The retry behaviour of one `send_email` call: up to 3 attempts. -/
def send_email_retry (outcome : Nat → Bool) : Bool × List Nat :=
  retryGo outcome 1 3

/-! ## Sample data used by witnesses -/

/-- A 99-character body: a single text node. -/
def body99 : HtmlSeq := .seq (.text ⟨List.replicate 99 'x'⟩) .nil

/-- A long body containing an empty h2 element. -/
def bodyEmptyH2 : HtmlSeq := .seq (.elem "h2" .nil) (.seq (.text ⟨List.replicate 120 'x'⟩) .nil)

/-- A long body whose only structural element has non-whitespace text. -/
def bodyGood : HtmlSeq := .seq (.elem "p" (.seq (.text ⟨List.replicate 120 'x'⟩) .nil)) .nil

/-- A 30 MiB log file. -/
def fA : LogFile := ⟨"a", 1, 30 * 1024 * 1024⟩

/-- A submission titled T with timestamp 1. -/
def subLow : Submission := ⟨"T", 1, .nil⟩

/-- A submission titled T with timestamp 2. -/
def subHigh : Submission := ⟨"T", 2, .nil⟩

/-- A submission titled T with timestamp 5 and an empty body. -/
def subTieA : Submission := ⟨"T", 5, .nil⟩

/-- A distinct submission titled T with the same timestamp 5. -/
def subTieB : Submission := ⟨"T", 5, .seq (.text "b") .nil⟩

/-- A configuration with the bot enabled and one (author, story) pair. -/
def cfgOn : Config := ⟨true, [("auth", ["S"])], "recv", "errrecv", "/w"⟩

/-- The same configuration with the bot disabled. -/
def cfgOff : Config := ⟨false, [("auth", ["S"])], "recv", "errrecv", "/w"⟩

/-- A fetch that returns no submissions. -/
def fetch0 : String → String → List Submission := fun _ _ => []

/-- A delivery that always fails with message boom. -/
def deliverFail : String → Option String := fun _ => some "boom"

end GalacticScribe

namespace GalacticScribe

/-! ## Theorems -/

theorem sanitizeChar_idem (c : Char) : sanitizeChar (sanitizeChar c) = sanitizeChar c := by
  by_cases h : c = '<' ∨ c = '>' ∨ c = ':' ∨ c = '"' ∨ c = '/' ∨ c = '\\' ∨
      c = '|' ∨ c = '?' ∨ c = '*'
  · have h1 : sanitizeChar c = '_' := by simp [sanitizeChar, h]
    rw [h1]; decide
  · have h1 : sanitizeChar c = c := by simp [sanitizeChar, h]
    rw [h1, h1]

/-- C7: applying the filename sanitizer twice yields the same result as
applying it once. -/
theorem sanitize_title_idempotent (s : String) :
    sanitize_title (sanitize_title s) = sanitize_title s := by
  have key : ∀ l : List Char, (l.map sanitizeChar).map sanitizeChar = l.map sanitizeChar := by
    intro l
    induction l with
    | nil => rfl
    | cons c t ih => simp [sanitizeChar_idem, ih]
  cases s with
  | mk data =>
      show (⟨(data.map sanitizeChar).map sanitizeChar⟩ : String) = ⟨data.map sanitizeChar⟩
      rw [key]

/-- C3: the validator rejects every body shorter than 100 characters,
rejects every body whose tree contains a paragraph or heading element with
no non-whitespace text, and accepts every body of 100 or more characters
all of whose paragraph and heading elements have non-whitespace text. -/
theorem validate_story_spec :
    (∀ t b, (HtmlSeq.render b).length < 100 → (validate_story t b).1 = false)
    ∧ (∀ t b, HtmlSeq.hasEmptyTag b = true → (validate_story t b).1 = false)
    ∧ (∀ t b, 100 ≤ (HtmlSeq.render b).length → HtmlSeq.hasEmptyTag b = false →
        (validate_story t b).1 = true) := by
  refine ⟨fun t b h => ?_, fun t b h => ?_, fun t b h1 h2 => ?_⟩
  · simp [validate_story, h]
  · by_cases hl : (HtmlSeq.render b).length < 100
    · simp [validate_story, hl]
    · simp [validate_story, hl, h]
  · have hl : ¬ (HtmlSeq.render b).length < 100 := by omega
    simp [validate_story, hl, h2]

set_option maxRecDepth 10000 in
/-- Witness for C3: a 99-character body is rejected, a long body with an
empty h2 is rejected, and a long body with a non-empty paragraph is
accepted. -/
theorem validate_story_spec_witness :
    (validate_story "c" body99).1 = false ∧ (validate_story "c" bodyEmptyH2).1 = false
      ∧ (validate_story "c" bodyGood).1 = true :=
  ⟨validate_story_spec.1 "c" body99 (by decide),
   validate_story_spec.2.1 "c" bodyEmptyH2 (by decide),
   validate_story_spec.2.2 "c" bodyGood (by decide) (by decide)⟩

/-- The retention loop returns a suffix of its input whose total size is
under the cap, and removes no more files than needed. -/
theorem cleanLoop_spec (cap : Nat) (l : List LogFile) :
    cleanLoop cap l <:+ l ∧ totalSize (cleanLoop cap l) ≤ cap ∧
      ∀ s, s <:+ l → totalSize s ≤ cap → s.length ≤ (cleanLoop cap l).length := by
  induction l with
  | nil =>
      refine ⟨List.nil_suffix, by simp [cleanLoop, totalSize], ?_⟩
      intro s hs _
      rw [List.suffix_nil.mp hs]
      exact Nat.le_refl _
  | cons f rest ih =>
      by_cases h : totalSize (f :: rest) > cap
      · have hr : cleanLoop cap (f :: rest) = cleanLoop cap rest := by
          simp [cleanLoop, h]
        rw [hr]
        refine ⟨ih.1.trans (List.suffix_cons f rest), ih.2.1, ?_⟩
        intro s hs hsize
        rcases List.suffix_cons_iff.mp hs with rfl | hs'
        · omega
        · exact ih.2.2 s hs' hsize
      · have hr : cleanLoop cap (f :: rest) = f :: rest := by
          simp [cleanLoop, h]
        rw [hr]
        exact ⟨List.suffix_rfl, by omega, fun s hs _ => hs.length_le⟩

/-- The first line of `clean_old_logs` really sorts by creation time. -/
theorem sortByCtime_pairwise (files : List LogFile) :
    (sortByCtime files).Pairwise (fun a b => a.ctime ≤ b.ctime) := by
  have h := @List.sorted_mergeSort LogFile
      (fun a b : LogFile => decide (a.ctime ≤ b.ctime))
      (fun a b c hab hbc => by
        simp only [decide_eq_true_eq] at hab hbc ⊢; omega)
      (fun a b => by
        simp only [Bool.or_eq_true, decide_eq_true_eq]; omega)
      files
  exact h.imp (fun hab => by simpa using hab)

/-- C5: retention deletes files oldest-first: the surviving files are a
suffix of the list sorted ascending by creation time (so the newest file is
never removed while an older one remains), the loop repeats until the total
size is at most the cap, and it deletes no more files than needed. -/
theorem clean_old_logs_spec (files : List LogFile) (max_size_mb : Nat) :
    clean_old_logs files max_size_mb <:+ sortByCtime files
    ∧ totalSize (clean_old_logs files max_size_mb) ≤ max_size_mb * 1024 * 1024
    ∧ (sortByCtime files).Chain' (fun a b => a.ctime ≤ b.ctime)
    ∧ (sortByCtime files).Perm files
    ∧ ∀ s, s <:+ sortByCtime files → totalSize s ≤ max_size_mb * 1024 * 1024 →
        s.length ≤ (clean_old_logs files max_size_mb).length := by
  have h := cleanLoop_spec (max_size_mb * 1024 * 1024) (sortByCtime files)
  exact ⟨h.1, h.2.1, (sortByCtime_pairwise files).chain',
    List.mergeSort_perm files _, h.2.2⟩

/-- Witness for C5: a single over-cap file is removed and the result is
under the cap; the empty suffix is never longer than the result. -/
theorem clean_old_logs_spec_witness :
    totalSize (clean_old_logs [fA] 25) ≤ 25 * 1024 * 1024 ∧
      ([] : List LogFile).length ≤ (clean_old_logs [fA] 25).length :=
  ⟨(clean_old_logs_spec [fA] 25).2.1,
   (clean_old_logs_spec [fA] 25).2.2.2.2 [] List.nil_suffix (by decide)⟩

/-- The claimed wait sequence 4, 8, 16 is not what the decorator produces:
when all three attempts of `send_email` fail, the two waits between the
attempts are both 4 time-units, because the wait after failed attempt n is
max 4 (min (2 ^ n) 60), not 4 * 2 ^ (n - 1). -/
theorem send_email_retry_waits_counterexample :
    (send_email_retry (fun _ => false)).2 = [4, 4] ∧
      (send_email_retry (fun _ => false)).2 ≠ [4, 8] := by
  decide

/-- C6 (amended): `send_email` is retried up to 3 total attempts; the wait
after failed attempt n is max 4 (min (2 ^ n) 60), so both waits are 4; after
the 3rd failed attempt the failure propagates to the caller. -/
theorem send_email_retry_spec (outcome : Nat → Bool) :
    (outcome 1 = false → outcome 2 = false → outcome 3 = false →
      send_email_retry outcome = (false, [4, 4]))
    ∧ (outcome 1 = true → send_email_retry outcome = (true, []))
    ∧ (outcome 1 = false → outcome 2 = true → send_email_retry outcome = (true, [4]))
    ∧ (outcome 1 = false → outcome 2 = false → outcome 3 = true →
      send_email_retry outcome = (true, [4, 4])) := by
  have w1 : send_email_wait 1 = 4 := by decide
  have w2 : send_email_wait 2 = 4 := by decide
  have e3 : send_email_retry outcome =
      (if outcome 1 then (true, [])
       else
         let r := retryGo outcome 2 2
         (r.1, send_email_wait 1 :: r.2)) := rfl
  have e2 : retryGo outcome 2 2 =
      (if outcome 2 then (true, [])
       else
         let r := retryGo outcome 3 1
         (r.1, send_email_wait 2 :: r.2)) := rfl
  have e1 : retryGo outcome 3 1 = (outcome 3, []) := rfl
  refine ⟨fun h1 h2 h3 => ?_, fun h1 => ?_, fun h1 h2 => ?_, fun h1 h2 h3 => ?_⟩ <;>
    simp [e3, e2, e1, w1, w2, h1, *]

/-- Witness for C6 (amended): when every attempt fails the call fails with
exactly the waits 4 and 4. -/
theorem send_email_retry_spec_witness :
    send_email_retry (fun _ => false) = (false, [4, 4]) :=
  (send_email_retry_spec (fun _ => false)).1 rfl rfl rfl

/-! ## Deduplication lemmas -/

theorem findTitle_cons (x : Submission) (xs : List Submission) (t : String) :
    findTitle (x :: xs) t = if x.title = t then some x else findTitle xs t := by
  by_cases h : x.title = t <;> simp [findTitle, List.find?_cons, h]

theorem dedupInsert_cons_eq {x s : Submission} (xs : List Submission)
    (hx : x.title = s.title) :
    dedupInsert (x :: xs) s =
      (if s.created_utc > x.created_utc then s else x) :: xs := by
  simp [dedupInsert, hx]

theorem dedupInsert_cons_ne {x s : Submission} (xs : List Submission)
    (hx : ¬ x.title = s.title) :
    dedupInsert (x :: xs) s = x :: dedupInsert xs s := by
  simp [dedupInsert, hx]

theorem findTitle_dedupInsert (m : List Submission) (s : Submission) (t : String) :
    findTitle (dedupInsert m s) t =
      if s.title = t then updBest (findTitle m t) s else findTitle m t := by
  induction m with
  | nil =>
      show findTitle [s] t = _
      rw [findTitle_cons]
      by_cases h : s.title = t <;> simp [h, updBest, findTitle]
  | cons x xs ih =>
      by_cases hx : x.title = s.title
      · rw [dedupInsert_cons_eq xs hx, findTitle_cons, findTitle_cons]
        by_cases ht : s.title = t
        · have hxt : x.title = t := hx.trans ht
          by_cases hc : s.created_utc > x.created_utc <;>
            simp [hc, ht, hxt, updBest, pick]
        · have hxt : ¬ x.title = t := by rw [hx]; exact ht
          by_cases hc : s.created_utc > x.created_utc <;> simp [hc, ht, hxt, hx]
      · rw [dedupInsert_cons_ne xs hx, findTitle_cons, findTitle_cons, ih]
        by_cases hxt : x.title = t
        · have hst : ¬ s.title = t := fun h => hx (hxt.trans h.symm)
          simp [hxt, hst]
        · simp [hxt]

theorem findTitle_foldl (l : List Submission) : ∀ (m : List Submission) (t : String),
    findTitle (l.foldl dedupInsert m) t =
      (l.filter (fun s => s.title == t)).foldl updBest (findTitle m t) := by
  induction l with
  | nil => intro m t; rfl
  | cons s l ih =>
      intro m t
      rw [List.foldl_cons, ih, findTitle_dedupInsert]
      by_cases h : s.title = t
      · simp [List.filter_cons, h]
      · simp [List.filter_cons, h]

theorem findTitle_chapter_submissions (l : List Submission) (t : String) :
    findTitle (chapter_submissions l) t =
      (l.filter (fun s => s.title == t)).foldl updBest none := by
  have h := findTitle_foldl l [] t
  simpa [chapter_submissions, findTitle] using h

theorem pick_eq_or (a b : Submission) : pick a b = a ∨ pick a b = b := by
  unfold pick; split
  · exact Or.inr rfl
  · exact Or.inl rfl

theorem pick_le_left (a b : Submission) :
    a.created_utc ≤ (pick a b).created_utc := by
  unfold pick; split <;> omega

theorem pick_le_right (a b : Submission) :
    b.created_utc ≤ (pick a b).created_utc := by
  unfold pick; split <;> omega

theorem foldl_updBest_some (fl : List Submission) (a : Submission) :
    ∃ b, fl.foldl updBest (some a) = some b ∧ (b = a ∨ b ∈ fl) ∧
      a.created_utc ≤ b.created_utc ∧ ∀ x ∈ fl, x.created_utc ≤ b.created_utc := by
  induction fl generalizing a with
  | nil => exact ⟨a, rfl, Or.inl rfl, le_refl _, by simp⟩
  | cons x fl ih =>
      obtain ⟨b, hb, hmem, hle, hall⟩ := ih (pick a x)
      refine ⟨b, by simpa [updBest] using hb, ?_, ?_, ?_⟩
      · rcases hmem with rfl | h
        · rcases pick_eq_or a x with h' | h'
          · exact Or.inl h'
          · exact Or.inr (by rw [h']; exact List.mem_cons_self x fl)
        · exact Or.inr (List.mem_cons_of_mem x h)
      · exact le_trans (pick_le_left a x) hle
      · intro y hy
        rcases List.mem_cons.mp hy with rfl | hy'
        · exact le_trans (pick_le_right a y) hle
        · exact hall y hy'

theorem mem_dedupInsert (m : List Submission) (s : Submission) :
    ∀ x ∈ dedupInsert m s, x ∈ m ∨ x = s := by
  induction m with
  | nil => simp [dedupInsert]
  | cons a m ih =>
      intro x hx
      by_cases ha : a.title = s.title
      · rw [dedupInsert_cons_eq m ha] at hx
        rcases List.mem_cons.mp hx with h | h
        · by_cases hc : s.created_utc > a.created_utc
          · rw [if_pos hc] at h; exact Or.inr h
          · rw [if_neg hc] at h; exact Or.inl (h ▸ List.mem_cons_self a m)
        · exact Or.inl (List.mem_cons_of_mem a h)
      · rw [dedupInsert_cons_ne m ha] at hx
        rcases List.mem_cons.mp hx with rfl | h
        · exact Or.inl (List.mem_cons_self x m)
        · rcases ih x h with h' | h'
          · exact Or.inl (List.mem_cons_of_mem a h')
          · exact Or.inr h'

theorem titles_nodup_dedupInsert (m : List Submission) (s : Submission)
    (h : (m.map Submission.title).Nodup) :
    ((dedupInsert m s).map Submission.title).Nodup := by
  induction m with
  | nil => simp [dedupInsert]
  | cons a m ih =>
      by_cases ha : a.title = s.title
      · rw [dedupInsert_cons_eq m ha]
        have hh : ((if s.created_utc > a.created_utc then s else a)).title = a.title := by
          split
          · exact ha.symm
          · rfl
        simpa [hh] using h
      · rw [dedupInsert_cons_ne m ha]
        simp only [List.map_cons, List.nodup_cons] at h ⊢
        refine ⟨?_, ih h.2⟩
        intro hmem
        rcases List.mem_map.mp hmem with ⟨x, hx, hxt⟩
        rcases mem_dedupInsert m s x hx with h' | rfl
        · exact h.1 (hxt ▸ List.mem_map_of_mem Submission.title h')
        · exact ha hxt.symm

theorem titles_nodup_foldl (l : List Submission) : ∀ m : List Submission,
    (m.map Submission.title).Nodup →
      ((l.foldl dedupInsert m).map Submission.title).Nodup := by
  induction l with
  | nil => intro m h; exact h
  | cons s l ih =>
      intro m h
      exact ih (dedupInsert m s) (titles_nodup_dedupInsert m s h)

theorem chapter_submissions_titles_nodup (l : List Submission) :
    ((chapter_submissions l).map Submission.title).Nodup :=
  titles_nodup_foldl l [] (by simp)

theorem findTitle_eq_some_of_mem (m : List Submission)
    (h : (m.map Submission.title).Nodup) (s : Submission) (hs : s ∈ m) :
    findTitle m s.title = some s := by
  induction m with
  | nil => cases hs
  | cons a m ih =>
      rcases List.mem_cons.mp hs with rfl | hs'
      · rw [findTitle_cons, if_pos rfl]
      · simp only [List.map_cons, List.nodup_cons] at h
        have ha : ¬ a.title = s.title := by
          intro he
          exact h.1 (he ▸ List.mem_map_of_mem Submission.title hs')
        rw [findTitle_cons, if_neg ha]
        exact ih h.2 hs'

theorem of_findTitle_eq_some {m : List Submission} {t : String} {s : Submission}
    (h : findTitle m t = some s) : s ∈ m ∧ s.title = t := by
  refine ⟨List.mem_of_find?_eq_some h, ?_⟩
  have := List.find?_some h
  simpa using this

/-- For every title, each element of the deduplicated dictionary is a fetched
submission with that title whose timestamp dominates every fetched submission
of the same title. -/
theorem mem_chapter_submissions_max (l : List Submission) :
    ∀ s ∈ chapter_submissions l, s ∈ l ∧
      ∀ x ∈ l, x.title = s.title → x.created_utc ≤ s.created_utc := by
  intro s hs
  have hft : findTitle (chapter_submissions l) s.title = some s :=
    findTitle_eq_some_of_mem _ (chapter_submissions_titles_nodup l) s hs
  rw [findTitle_chapter_submissions] at hft
  cases hfl : l.filter (fun x => x.title == s.title) with
  | nil => rw [hfl] at hft; cases hft
  | cons a fl =>
      rw [hfl] at hft
      obtain ⟨b, hb, hmem, hle, hall⟩ := foldl_updBest_some fl a
      have hbs : b = s := by
        have : some b = some s := by
          rw [← hb]
          simpa [updBest] using hft
        exact Option.some.inj this
      subst hbs
      constructor
      · have hbmem : b ∈ l.filter (fun x => x.title == b.title) := by
          rw [hfl]
          rcases hmem with rfl | h
          · exact List.mem_cons_self _ _
          · exact List.mem_cons_of_mem _ h
        exact (List.mem_filter.mp hbmem).1
      · intro x hx hxt
        have hxf : x ∈ l.filter (fun y => y.title == b.title) :=
          List.mem_filter.mpr ⟨hx, by simp [hxt]⟩
        rw [hfl] at hxf
        rcases List.mem_cons.mp hxf with rfl | h
        · exact hle
        · exact hall x h

/-- C1: after deduplication the dictionary holds exactly one submission per
distinct fetched title; each kept submission is a fetched one whose timestamp
dominates all fetched submissions with the same title; so for two colliding
submissions with different timestamps, the earlier one is never kept and the
kept one is at least as late as the later one. -/
theorem chapter_submissions_spec (l : List Submission) :
    ((chapter_submissions l).map Submission.title).Nodup
    ∧ (∀ t : String, (∃ s ∈ l, s.title = t) ↔ ∃ s ∈ chapter_submissions l, s.title = t)
    ∧ (∀ s ∈ chapter_submissions l, s ∈ l ∧
        ∀ x ∈ l, x.title = s.title → x.created_utc ≤ s.created_utc)
    ∧ (∀ s₁ ∈ l, ∀ s₂ ∈ l, s₁.title = s₂.title → s₁.created_utc < s₂.created_utc →
        ∀ s ∈ chapter_submissions l, s.title = s₁.title →
          s ≠ s₁ ∧ s₂.created_utc ≤ s.created_utc) := by
  refine ⟨chapter_submissions_titles_nodup l, ?_, mem_chapter_submissions_max l, ?_⟩
  · intro t
    constructor
    · rintro ⟨s, hs, rfl⟩
      cases hfl : l.filter (fun x => x.title == s.title) with
      | nil =>
          exfalso
          have : s ∈ l.filter (fun x => x.title == s.title) :=
            List.mem_filter.mpr ⟨hs, by simp⟩
          rw [hfl] at this
          cases this
      | cons a fl =>
          obtain ⟨b, hb, _, _, _⟩ := foldl_updBest_some fl a
          have hft : findTitle (chapter_submissions l) s.title = some b := by
            rw [findTitle_chapter_submissions, hfl]
            simpa [updBest] using hb
          obtain ⟨hbm, hbt⟩ := of_findTitle_eq_some hft
          exact ⟨b, hbm, hbt⟩
    · rintro ⟨s, hs, rfl⟩
      exact ⟨s, (mem_chapter_submissions_max l s hs).1, rfl⟩
  · intro s₁ h₁ s₂ h₂ ht hlt s hs hst
    have k := mem_chapter_submissions_max l s hs
    have h₂' : s₂.created_utc ≤ s.created_utc :=
      k.2 s₂ h₂ ((hst.trans ht).symm)
    refine ⟨?_, h₂'⟩
    intro he
    rw [he] at h₂'
    omega

/-- Witness for C1: two submissions titled T with timestamps 1 and 2; the
kept entry (the later one) differs from the earlier submission and its
timestamp is at least that of the later one. -/
theorem chapter_submissions_spec_witness :
    subHigh ≠ subLow ∧ subHigh.created_utc ≤ subHigh.created_utc :=
  (chapter_submissions_spec [subLow, subHigh]).2.2.2 subLow
    (List.mem_cons_self subLow [subHigh])
    subHigh (List.mem_cons_of_mem subLow (List.mem_cons_self subHigh []))
    rfl (by decide) subHigh
    (by
      rw [show chapter_submissions [subLow, subHigh] = [subHigh] from rfl]
      exact List.mem_cons_self subHigh [])
    rfl

/-- C9: two submissions sharing a title with equal timestamps: the dictionary
keeps the first-encountered one, because replacement only happens on a
strictly greater timestamp. -/
theorem dedup_ties_keep_first (l : List Submission) (t : String) (s₁ s₂ : Submission)
    (hf : l.filter (fun s => s.title == t) = [s₁, s₂])
    (he : s₁.created_utc = s₂.created_utc) :
    findTitle (chapter_submissions l) t = some s₁ ∧
      ∀ s ∈ chapter_submissions l, s.title = t → s = s₁ := by
  have h := findTitle_chapter_submissions l t
  rw [hf] at h
  have hnc : ¬ (s₂.created_utc > s₁.created_utc) := by omega
  have hpick : pick s₁ s₂ = s₁ := by simp [pick, hnc]
  have hsome : findTitle (chapter_submissions l) t = some s₁ := by
    rw [h]
    simp [updBest, hpick]
  refine ⟨hsome, fun s hs hst => ?_⟩
  have hms : findTitle (chapter_submissions l) s.title = some s :=
    findTitle_eq_some_of_mem _ (chapter_submissions_titles_nodup l) s hs
  rw [hst, hsome] at hms
  exact (Option.some.inj hms).symm

/-- Witness for C9: two distinct submissions titled T with the same
timestamp 5; the dictionary keeps the first one. -/
theorem dedup_ties_keep_first_witness :
    findTitle (chapter_submissions [subTieA, subTieB]) "T" = some subTieA :=
  (dedup_ties_keep_first [subTieA, subTieB] "T" subTieA subTieB rfl rfl).1

/-- C2: the deduplicated submissions in processing order are non-decreasing
by creation timestamp at every adjacent pair, and so are the chapters
surviving validation. -/
theorem sorted_submissions_sorted (l : List Submission) :
    (sorted_submissions l).Chain' (fun a b => a.created_utc ≤ b.created_utc)
    ∧ (validChapters l).Chain' (fun a b => a.created_utc ≤ b.created_utc) := by
  have hp : (sorted_submissions l).Pairwise (fun a b => a.created_utc ≤ b.created_utc) := by
    have h := @List.sorted_mergeSort Submission
        (fun a b : Submission => decide (a.created_utc ≤ b.created_utc))
        (fun a b c hab hbc => by
          simp only [decide_eq_true_eq] at hab hbc ⊢; omega)
        (fun a b => by
          simp only [Bool.or_eq_true, decide_eq_true_eq]; omega)
        (chapter_submissions l)
    exact h.imp (fun hab => by simpa using hab)
  exact ⟨hp.chain', (hp.sublist (List.filter_sublist _)).chain'⟩

/-! ## Orchestrator theorems -/

/-- C8: with the bot disabled, the run performs no per-story work at all
(no fetch, directory, e-book, per-story email or ledger event) and the only
action is the single summary email with an empty story list. -/
theorem download_stories_disabled (cfg : Config)
    (fetch : String → String → List Submission) (deliver : String → Option String)
    (h : cfg.bot_enabled = false) :
    download_stories cfg fetch deliver =
      ⟨[Event.sendEmail none "Stories Download Summary" cfg.error_receiver
          (some "Summary:\n\n")], [], []⟩ := by
  have h0 : ("Summary:\n\n" ++ String.intercalate "\n" ([] : List String)) =
      "Summary:\n\n" := rfl
  simp [download_stories, runResults, h, catMap, h0]

/-- Witness for C8: the concrete disabled configuration produces exactly the
one empty summary email. -/
theorem download_stories_disabled_witness :
    download_stories cfgOff fetch0 deliverFail =
      ⟨[Event.sendEmail none "Stories Download Summary" "errrecv"
          (some "Summary:\n\n")], [], []⟩ :=
  download_stories_disabled cfgOff fetch0 deliverFail rfl

/-- C10: for every (author, story) pair processed with the bot enabled, an
e-book write whose spine is the nav entry followed by the validated chapters
in order always happens, and its delivery is always attempted, even when no
submission survives (then the spine is just the nav entry and the table of
contents is empty). -/
theorem processStory_spec (cfg : Config) (fetch : String → String → List Submission)
    (deliver : String → Option String) (author story : String) :
    Event.writeEpub (epubPath cfg story)
        (SpineItem.nav ::
          (validChapters (fetch author story)).map (fun s => SpineItem.chapter s.title))
        ((validChapters (fetch author story)).map Submission.title)
      ∈ (processStory cfg fetch deliver author story).events
    ∧ Event.sendEmail (some (epubPath cfg story)) story cfg.receiver none
      ∈ (processStory cfg fetch deliver author story).events
    ∧ (validChapters (fetch author story) = [] →
        Event.writeEpub (epubPath cfg story) [SpineItem.nav] []
          ∈ (processStory cfg fetch deliver author story).events) := by
  refine ⟨?_, ?_, fun h0 => ?_⟩
  · cases hd : deliver (epubPath cfg story) <;> simp [processStory, hd]
  · cases hd : deliver (epubPath cfg story) <;> simp [processStory, hd]
  · cases hd : deliver (epubPath cfg story) <;> simp [processStory, hd, h0]

/-- Witness for C10: with an empty fetch result the e-book is still written
with spine consisting of the nav entry only and an empty table of contents. -/
theorem processStory_spec_witness :
    Event.writeEpub (epubPath cfgOn "S") [SpineItem.nav] []
      ∈ (processStory cfgOn fetch0 deliverFail "auth" "S").events :=
  (processStory_spec cfgOn fetch0 deliverFail "auth" "S").2.2
    (by simp [fetch0, validChapters, sorted_submissions, chapter_submissions])

/-- Counterexample to C4: a run with one story whose delivery fails; its
retained e-book path is in `failed_files` but does not occur anywhere in the
emailed summary body. -/
theorem failed_files_not_in_summary_email :
    ∃ p ∈ (download_stories cfgOn fetch0 deliverFail).failed_files,
      ¬ (p.data <:+: ("Summary:\n\n" ++ String.intercalate "\n"
          (download_stories cfgOn fetch0 deliverFail).summary).data) := by
  have hf : (download_stories cfgOn fetch0 deliverFail).failed_files =
      ["/w/S/S.epub"] := by decide
  have hs : ("Summary:\n\n" ++ String.intercalate "\n"
        (download_stories cfgOn fetch0 deliverFail).summary) =
      "Summary:\n\nFailed to send and delete EPUB for S: boom" := by decide
  rw [hf, hs]
  refine ⟨"/w/S/S.epub", List.mem_cons_self _ _, fun hinf => ?_⟩
  have hdot : '.' ∈ ("Summary:\n\nFailed to send and delete EPUB for S: boom").data :=
    hinf.subset (show '.' ∈ "/w/S/S.epub".data by decide)
  have hnot : ¬ '.' ∈ ("Summary:\n\nFailed to send and delete EPUB for S: boom").data := by
    decide
  exact hnot hdot

theorem catMap_map (g : β → List γ) (f : α → β) (l : List α) :
    catMap g (l.map f) = catMap (fun a => g (f a)) l := by
  induction l with
  | nil => rfl
  | cons x xs ih => simp [catMap, ih]

theorem catMap_length_one (g : α → List β) (h : ∀ a, (g a).length = 1) (l : List α) :
    (catMap g l).length = l.length := by
  induction l with
  | nil => rfl
  | cons x xs ih => simp [catMap, h, ih]; omega

theorem catMap_congr (f g : α → List β) (l : List α) (h : ∀ a ∈ l, f a = g a) :
    catMap f l = catMap g l := by
  induction l with
  | nil => rfl
  | cons x xs ih =>
      rw [catMap, catMap, h x (List.mem_cons_self x xs),
        ih (fun a ha => h a (List.mem_cons_of_mem x ha))]

theorem catMap_if (p : α → Bool) (f : α → β) (l : List α) :
    catMap (fun a => if p a then [f a] else []) l = (l.filter p).map f := by
  induction l with
  | nil => rfl
  | cons x xs ih => by_cases hp : p x <;> simp [catMap, List.filter_cons, hp, ih]

theorem processStory_summary_length (cfg : Config)
    (fetch : String → String → List Submission) (deliver : String → Option String)
    (author story : String) :
    (processStory cfg fetch deliver author story).summary.length = 1 := by
  cases hd : deliver (epubPath cfg story) <;> simp [processStory, hd]

theorem processStory_failed_files (cfg : Config)
    (fetch : String → String → List Submission) (deliver : String → Option String)
    (author story : String) :
    (processStory cfg fetch deliver author story).failed_files =
      if (deliver (epubPath cfg story)).isSome then [epubPath cfg story] else [] := by
  cases hd : deliver (epubPath cfg story) <;> simp [processStory, hd]

set_option maxHeartbeats 1000000 in
/-- C4 (amended): the emailed run summary consists of the fixed header and
the outcome lines only, one line per configured story; the undelivered file
paths are accumulated in the separate `failed_files` list (exactly the
e-book paths whose delivery failed), which is not part of the emailed body. -/
theorem download_stories_summary_spec (cfg : Config)
    (fetch : String → String → List Submission) (deliver : String → Option String) :
    (download_stories cfg fetch deliver).events.getLast? =
      some (Event.sendEmail none "Stories Download Summary" cfg.error_receiver
        (some ("Summary:\n\n" ++ String.intercalate "\n"
          (download_stories cfg fetch deliver).summary)))
    ∧ (cfg.bot_enabled = true →
        (download_stories cfg fetch deliver).summary.length = (storyPairs cfg).length)
    ∧ (cfg.bot_enabled = true →
        (download_stories cfg fetch deliver).failed_files =
          ((storyPairs cfg).filter (fun p => (deliver (epubPath cfg p.2)).isSome)).map
            (fun p => epubPath cfg p.2)) := by
  have he : (download_stories cfg fetch deliver).events =
      catMap StoryResult.events (runResults cfg fetch deliver) ++
        [Event.sendEmail none "Stories Download Summary" cfg.error_receiver
          (some ("Summary:\n\n" ++ String.intercalate "\n"
            (catMap StoryResult.summary (runResults cfg fetch deliver))))] := rfl
  have hsum : (download_stories cfg fetch deliver).summary =
      catMap StoryResult.summary (runResults cfg fetch deliver) := rfl
  have hff : (download_stories cfg fetch deliver).failed_files =
      catMap StoryResult.failed_files (runResults cfg fetch deliver) := rfl
  refine ⟨?_, fun hb => ?_, fun hb => ?_⟩
  · rw [he, hsum, List.getLast?_concat]
  · have hr : runResults cfg fetch deliver =
        (storyPairs cfg).map (fun p => processStory cfg fetch deliver p.1 p.2) := by
      simp [runResults, hb]
    rw [hsum, hr, catMap_map]
    exact catMap_length_one _
      (fun p : String × String =>
        processStory_summary_length cfg fetch deliver p.1 p.2) _
  · have hr : runResults cfg fetch deliver =
        (storyPairs cfg).map (fun p => processStory cfg fetch deliver p.1 p.2) := by
      simp [runResults, hb]
    rw [hff, hr, catMap_map,
      catMap_congr _ _ _
        (fun (p : String × String) _ =>
          processStory_failed_files cfg fetch deliver p.1 p.2),
      catMap_if]

/-- Witness for C4 (amended): in the concrete failing run there is exactly
one summary line and the failed path list is the filtered path list. -/
theorem download_stories_summary_spec_witness :
    (download_stories cfgOn fetch0 deliverFail).summary.length =
      (storyPairs cfgOn).length
    ∧ (download_stories cfgOn fetch0 deliverFail).failed_files =
        ((storyPairs cfgOn).filter
          (fun p => (deliverFail (epubPath cfgOn p.2)).isSome)).map
          (fun p => epubPath cfgOn p.2) :=
  ⟨(download_stories_summary_spec cfgOn fetch0 deliverFail).2.1 rfl,
   (download_stories_summary_spec cfgOn fetch0 deliverFail).2.2 rfl⟩

end GalacticScribe
